import Mathlib

/-!
Verification of the `stRingBuffer` string ring buffer.

Two revisions of the Go source are embedded:
* namespace `V1` models `src/stRingBuffer/stRingBuffer.go` (the `end` cursor
  points at the newest element, `start` one slot before the oldest);
* namespace `V2` models `src/unnamed/part_002` (the revision with `Slice` and
  `Unslice`; there `start` points at the oldest element and `end` one slot past
  the newest).

Go runtime panics (integer division by zero in `mod`, index out of range)
are modelled by `Option`: `none` is a panic, `some` a normal return.
-/

structure StRingBuffer where
  start : Nat
  «end» : Nat
  lines : List String
  length : Nat
deriving Repr, DecidableEq

/-- `NewStRingBuffer(size)`: an empty buffer with `size` zero-valued slots. -/
def NewStRingBuffer (size : Nat) : StRingBuffer :=
  ⟨0, 0, List.replicate size "", 0⟩

/-- Go `s.mod(x) = (x + l) % l` with `l = len(s.lines)`; Go `%` is truncated
remainder and panics when `l = 0`. -/
def goMod (l : Nat) (x : Int) : Option Nat :=
  if l = 0 then none else some ((Int.tmod (x + l) l).toNat)

/-- Go `s.Full()`. -/
def StRingBuffer.Full (s : StRingBuffer) : Bool := s.length == s.lines.length

/-- Go `s.Empty()`. -/
def StRingBuffer.Empty (s : StRingBuffer) : Bool := s.length == 0

/-- Go `s.Length()`. -/
def StRingBuffer.Length (s : StRingBuffer) : Nat := s.length

/-- Go `s.Capacity()`. -/
def StRingBuffer.Capacity (s : StRingBuffer) : Nat := s.lines.length

namespace V1

/-- One iteration of the loop body of `Push` in `src/stRingBuffer/stRingBuffer.go`:
if full, advance `start`; else grow; then advance `end` and write at the new `end`. -/
def push1 (s : StRingBuffer) (line : String) : Option StRingBuffer := do
  let s ←
    if s.Full then
      match goMod s.lines.length ((s.start : Int) + 1) with
      | none => none
      | some st => some { s with start := st }
    else
      some { s with length := s.length + 1 }
  match goMod s.lines.length ((s.«end» : Int) + 1) with
  | none => none
  | some e => some { s with «end» := e, lines := s.lines.set e line }

/-- `Push(lines...)` of `src/stRingBuffer/stRingBuffer.go`. -/
def Push (s : StRingBuffer) (lines : List String) : Option StRingBuffer :=
  lines.foldlM push1 s

/-- `Pop()` of `src/stRingBuffer/stRingBuffer.go`: read at `end`, clear the
slot, retract `end`. -/
def Pop (s : StRingBuffer) : Option (String × StRingBuffer) :=
  if s.Empty then some ("", s)
  else
    let s1 : StRingBuffer := { s with length := s.length - 1 }
    match s1.lines.get? s1.«end» with
    | none => none
    | some ret =>
      let s2 : StRingBuffer := { s1 with lines := s1.lines.set s1.«end» "" }
      match goMod s2.lines.length ((s2.«end» : Int) - 1) with
      | none => none
      | some e => some (ret, { s2 with «end» := e })

/-- One iteration of the loop body of `Unshift` in
`src/stRingBuffer/stRingBuffer.go`: if full, retract `end`; else grow; then
write at `start` and retract `start`. -/
def unshift1 (s : StRingBuffer) (line : String) : Option StRingBuffer := do
  let s ←
    if s.Full then
      match goMod s.lines.length ((s.«end» : Int) - 1) with
      | none => none
      | some e => some { s with «end» := e }
    else
      some { s with length := s.length + 1 }
  if s.start < s.lines.length then
    let s1 : StRingBuffer := { s with lines := s.lines.set s.start line }
    match goMod s1.lines.length ((s1.start : Int) - 1) with
    | none => none
    | some st => some { s1 with start := st }
  else none

/-- `Unshift(lines...)` of `src/stRingBuffer/stRingBuffer.go`. -/
def Unshift (s : StRingBuffer) (lines : List String) : Option StRingBuffer :=
  lines.foldlM unshift1 s

/-- `Shift()` of `src/stRingBuffer/stRingBuffer.go`: advance `start`, read at
the new `start`, clear the slot. -/
def Shift (s : StRingBuffer) : Option (String × StRingBuffer) :=
  if s.Empty then some ("", s)
  else
    let s1 : StRingBuffer := { s with length := s.length - 1 }
    match goMod s1.lines.length ((s1.start : Int) + 1) with
    | none => none
    | some st =>
      match s1.lines.get? st with
      | none => none
      | some ret => some (ret, { s1 with start := st, lines := s1.lines.set st "" })

/-- The loop of `Map` of `src/stRingBuffer/stRingBuffer.go`, iterated a fixed
number of times: each step is `s.Push(f(s.Shift()))`. -/
def mapSteps : Nat → (String → String) → StRingBuffer → Option StRingBuffer
  | 0, _, s => some s
  | n + 1, f, s => do
    let (r, s1) ← Shift s
    let s2 ← push1 s1 (f r)
    mapSteps n f s2

/-- `Map(f)` of `src/stRingBuffer/stRingBuffer.go`: the bound `l := s.Length()`
is taken before the loop. -/
def Map (s : StRingBuffer) (f : String → String) : Option StRingBuffer :=
  mapSteps s.length f s

/-- Like `mapSteps` but also records, in order, every string that was shifted
out and handed to `f`: the observation trace of `Map`. -/
def mapStepsT : Nat → (String → String) → StRingBuffer → Option (StRingBuffer × List String)
  | 0, _, s => some (s, [])
  | n + 1, f, s => do
    let (r, s1) ← Shift s
    let s2 ← push1 s1 (f r)
    let (s3, t) ← mapStepsT n f s2
    some (s3, r :: t)

/-- Calling `Shift()` `n` times, collecting the returned strings in order. -/
def shiftN : StRingBuffer → Nat → Option (List String × StRingBuffer)
  | s, 0 => some ([], s)
  | s, n + 1 => do
    let (x, s1) ← Shift s
    let (xs, s2) ← shiftN s1 n
    some (x :: xs, s2)

/-- Calling `Pop()` `n` times, collecting the returned strings in order. -/
def popN : StRingBuffer → Nat → Option (List String × StRingBuffer)
  | s, 0 => some ([], s)
  | s, n + 1 => do
    let (x, s1) ← Pop s
    let (xs, s2) ← popN s1 n
    some (x :: xs, s2)

end V1

namespace V2

/-- One iteration of the loop body of `Push` in `src/unnamed/part_002`:
if full, advance `start`; else grow; then write at the current `end` (a Go
index-out-of-range panic if `end` is outside the backing array) and advance
`end`. -/
def push1 (s : StRingBuffer) (line : String) : Option StRingBuffer := do
  let s ←
    if s.Full then
      match goMod s.lines.length ((s.start : Int) + 1) with
      | none => none
      | some st => some { s with start := st }
    else
      some { s with length := s.length + 1 }
  if s.«end» < s.lines.length then
    let s1 : StRingBuffer := { s with lines := s.lines.set s.«end» line }
    match goMod s1.lines.length ((s1.«end» : Int) + 1) with
    | none => none
    | some e => some { s1 with «end» := e }
  else none

/-- `Push(lines...)` of `src/unnamed/part_002`. -/
def Push (s : StRingBuffer) (lines : List String) : Option StRingBuffer :=
  lines.foldlM push1 s

/-- `Pop()` of `src/unnamed/part_002`: retract `end`, read at the new `end`,
clear the slot. -/
def Pop (s : StRingBuffer) : Option (String × StRingBuffer) :=
  if s.Empty then some ("", s)
  else
    let s1 : StRingBuffer := { s with length := s.length - 1 }
    match goMod s1.lines.length ((s1.«end» : Int) - 1) with
    | none => none
    | some e =>
      match s1.lines.get? e with
      | none => none
      | some ret => some (ret, { s1 with «end» := e, lines := s1.lines.set e "" })

/-- One iteration of the loop body of `Unshift` in `src/unnamed/part_002`:
if full, retract `end`; else grow; then retract `start` and write at the new
`start`. -/
def unshift1 (s : StRingBuffer) (line : String) : Option StRingBuffer := do
  let s ←
    if s.Full then
      match goMod s.lines.length ((s.«end» : Int) - 1) with
      | none => none
      | some e => some { s with «end» := e }
    else
      some { s with length := s.length + 1 }
  match goMod s.lines.length ((s.start : Int) - 1) with
  | none => none
  | some st => some { s with start := st, lines := s.lines.set st line }

/-- `Unshift(lines...)` of `src/unnamed/part_002`. -/
def Unshift (s : StRingBuffer) (lines : List String) : Option StRingBuffer :=
  lines.foldlM unshift1 s

/-- `Shift()` of `src/unnamed/part_002`: read at `start` (Go panic if out of
range), clear the slot, advance `start`. -/
def Shift (s : StRingBuffer) : Option (String × StRingBuffer) :=
  if s.Empty then some ("", s)
  else
    let s1 : StRingBuffer := { s with length := s.length - 1 }
    match s1.lines.get? s1.start with
    | none => none
    | some ret =>
      let s2 : StRingBuffer := { s1 with lines := s1.lines.set s1.start "" }
      match goMod s2.lines.length ((s2.start : Int) + 1) with
      | none => none
      | some st => some (ret, { s2 with start := st })

/-- The loop of `Map` of `src/unnamed/part_002`: each step is
`s.Push(f(s.Shift()))`. -/
def mapSteps : Nat → (String → String) → StRingBuffer → Option StRingBuffer
  | 0, _, s => some s
  | n + 1, f, s => do
    let (r, s1) ← Shift s
    let s2 ← push1 s1 (f r)
    mapSteps n f s2

/-- `Map(f)` of `src/unnamed/part_002`. -/
def Map (s : StRingBuffer) (f : String → String) : Option StRingBuffer :=
  mapSteps s.length f s

/-- The loop of `MapR` of `src/unnamed/part_002`: each step is
`s.Unshift(f(s.Pop()))`. -/
def mapRSteps : Nat → (String → String) → StRingBuffer → Option StRingBuffer
  | 0, _, s => some s
  | n + 1, f, s => do
    let (r, s1) ← Pop s
    let s2 ← unshift1 s1 (f r)
    mapRSteps n f s2

/-- `MapR(f)` of `src/unnamed/part_002`. -/
def MapR (s : StRingBuffer) (f : String → String) : Option StRingBuffer :=
  mapRSteps s.length f s

/-- Like `mapSteps` but also records the strings handed to `f`, in call order. -/
def mapStepsT : Nat → (String → String) → StRingBuffer → Option (StRingBuffer × List String)
  | 0, _, s => some (s, [])
  | n + 1, f, s => do
    let (r, s1) ← Shift s
    let s2 ← push1 s1 (f r)
    let (s3, t) ← mapStepsT n f s2
    some (s3, r :: t)

/-- Like `mapRSteps` but also records the strings handed to `f`, in call order. -/
def mapRStepsT : Nat → (String → String) → StRingBuffer → Option (StRingBuffer × List String)
  | 0, _, s => some (s, [])
  | n + 1, f, s => do
    let (r, s1) ← Pop s
    let s2 ← unshift1 s1 (f r)
    let (s3, t) ← mapRStepsT n f s2
    some (s3, r :: t)

/-- Go `copy(dst, src)` on string slices: copies `min |dst| |src|` elements
into the front of `dst`, keeping the rest of `dst`. -/
def goCopy (dst src : List String) : List String :=
  src.take dst.length ++ dst.drop (min dst.length src.length)

/-- `Slice()` of `src/unnamed/part_002`: allocate `Length()` empty slots and
copy the live range in, in one or two pieces.  Go slicing-expression bound
checks are modelled: out-of-bound slicing is `none` (panic). -/
def Slice (s : StRingBuffer) : Option (List String) :=
  let slice := List.replicate s.Length ""
  if s.Empty then some slice
  else if s.start < s.«end» then
    if s.«end» + 1 ≤ s.lines.length then
      some (goCopy slice ((s.lines.drop s.start).take (s.«end» + 1 - s.start)))
    else none
  else
    let part1 := s.lines.drop s.start
    let part2 := s.lines.take s.«end»
    if s.start ≤ s.lines.length ∧ s.«end» ≤ s.lines.length
        ∧ part1.length ≤ slice.length then
      let s1 := goCopy slice part1
      some (s1.take part1.length ++ goCopy (s1.drop part1.length) part2)
    else none

/-- `Unslice(lines)` of `src/unnamed/part_002`: a buffer over the given slice,
fully occupied, with `end` set via `mod` (hence a panic on an empty slice). -/
def Unslice (lines : List String) : Option StRingBuffer :=
  let srb : StRingBuffer := ⟨0, 0, lines, lines.length⟩
  match goMod srb.lines.length (srb.length : Int) with
  | none => none
  | some e => some { srb with «end» := e }

/-- Calling `Shift()` `n` times, collecting the returned strings in order. -/
def shiftN : StRingBuffer → Nat → Option (List String × StRingBuffer)
  | s, 0 => some ([], s)
  | s, n + 1 => do
    let (x, s1) ← Shift s
    let (xs, s2) ← shiftN s1 n
    some (x :: xs, s2)

end V2

/-! ### Ring layout of reachable buffer states -/

/-- Logical offset of storage index `j` from anchor index `a` on a ring of
`cap` slots: the unique `d < cap` with `(a + d) % cap = j`. -/
def off (a j cap : Nat) : Nat :=
  (j + cap - a % cap) % cap

theorem off_lt (a j cap : Nat) (h : 0 < cap) : off a j cap < cap :=
  Nat.mod_lt _ h

theorem off_of_add (a cap i : Nat) (h : 0 < cap) (hi : i < cap) :
    off a ((a + i) % cap) cap = i := by
  have hb : a % cap < cap := Nat.mod_lt _ h
  have h1 : (a + i) % cap = (a % cap + i) % cap := by
    rw [Nat.add_mod, Nat.mod_eq_of_lt hi]
  unfold off
  rw [h1]
  rcases Nat.lt_or_ge (a % cap + i) cap with hc | hc
  · rw [Nat.mod_eq_of_lt hc]
    have e : a % cap + i + cap - a % cap = i + cap := by omega
    rw [e, Nat.add_mod_right, Nat.mod_eq_of_lt hi]
  · have h2 : (a % cap + i) % cap = a % cap + i - cap := by
      rw [Nat.mod_eq_sub_mod hc, Nat.mod_eq_of_lt (by omega)]
    rw [h2]
    have e : a % cap + i - cap + cap - a % cap = i := by omega
    rw [e, Nat.mod_eq_of_lt hi]

theorem off_eq_of (a cap i j : Nat) (h : 0 < cap) (hi : i < cap)
    (hji : (a + i) % cap = j) : off a j cap = i := by
  rw [← hji]
  exact off_of_add a cap i h hi

theorem add_off (a cap j : Nat) (h : 0 < cap) (hj : j < cap) :
    (a + off a j cap) % cap = j := by
  have hb : a % cap < cap := Nat.mod_lt _ h
  have hdlt : off a j cap < cap := off_lt a j cap h
  have h1 : (a + off a j cap) % cap = (a % cap + off a j cap) % cap := by
    rw [Nat.add_mod, Nat.mod_eq_of_lt hdlt]
  rw [h1]
  unfold off
  rcases Nat.lt_or_ge j (a % cap) with hc | hc
  · have hdv : (j + cap - a % cap) % cap = j + cap - a % cap :=
      Nat.mod_eq_of_lt (by omega)
    rw [hdv]
    have e : a % cap + (j + cap - a % cap) = j + cap := by omega
    rw [e, Nat.add_mod_right, Nat.mod_eq_of_lt hj]
  · have e0 : j + cap - a % cap = (j - a % cap) + cap := by omega
    have hdv : (j + cap - a % cap) % cap = j - a % cap := by
      rw [e0, Nat.add_mod_right, Nat.mod_eq_of_lt (by omega)]
    rw [hdv]
    have e : a % cap + (j - a % cap) = j := by omega
    rw [e, Nat.mod_eq_of_lt hj]

theorem add_mod_inj (a cap i j : Nat) (h : 0 < cap) (hi : i < cap) (hj : j < cap)
    (hij : (a + i) % cap = (a + j) % cap) : i = j := by
  have h1 := off_of_add a cap i h hi
  rw [hij, off_of_add a cap j h hj] at h1
  exact h1.symm

/-- The backing array of a reachable ring state: live values `xs` occupy the
slots `(a + d) % cap` for `d < xs.length`; every other slot holds `""`. -/
def ringSlots (a cap : Nat) (xs : List String) : List String :=
  (List.range cap).map (fun j => xs.getD (off a j cap) "")

theorem ringSlots_length (a cap : Nat) (xs : List String) :
    (ringSlots a cap xs).length = cap := by
  simp [ringSlots]

theorem ringSlots_getElem? (a cap : Nat) (xs : List String) (j : Nat) (hj : j < cap) :
    (ringSlots a cap xs)[j]? = some (xs.getD (off a j cap) "") := by
  simp [ringSlots, List.getElem?_range hj]

theorem ringSlots_getElem?_ge (a cap : Nat) (xs : List String) (j : Nat) (hj : cap ≤ j) :
    (ringSlots a cap xs)[j]? = none := by
  apply List.getElem?_eq_none
  simpa [ringSlots_length] using hj

theorem ringSlots_congr (a b cap : Nat) (xs : List String) (h : a % cap = b % cap) :
    ringSlots a cap xs = ringSlots b cap xs := by
  simp only [ringSlots, off, h]

theorem ringSlots_nil (a cap : Nat) : ringSlots a cap [] = List.replicate cap "" := by
  apply List.ext_getElem?
  intro j
  rcases Nat.lt_or_ge j cap with hj | hj
  · rw [ringSlots_getElem? a cap [] j hj, List.getElem?_replicate, if_pos hj]
    simp
  · rw [ringSlots_getElem?_ge a cap [] j hj, List.getElem?_replicate, if_neg (by omega)]

/-- Generic update rule: setting the slot at logical offset `n` rewrites the
ring of `xs` into the ring of any `ys` that agrees with `xs` off `n` and holds
`v` at `n`. -/
theorem ringSlots_set_at (a cap n : Nat) (xs ys : List String) (v : String)
    (h : 0 < cap) (hn : n < cap)
    (heq : ∀ d : Nat, d < cap → ys.getD d "" = if d = n then v else xs.getD d "") :
    (ringSlots a cap xs).set ((a + n) % cap) v = ringSlots a cap ys := by
  apply List.ext_getElem?
  intro j
  rcases Nat.lt_or_ge j cap with hj | hj
  · rw [List.getElem?_set, ringSlots_getElem? a cap ys j hj]
    have hd : off a j cap < cap := off_lt a j cap h
    have hja : (a + off a j cap) % cap = j := add_off a cap j h hj
    by_cases hcase : (a + n) % cap = j
    · have hoff : off a j cap = n := by
        apply add_mod_inj a cap (off a j cap) n h hd hn
        rw [hja, hcase]
      rw [if_pos hcase, if_pos (by rw [ringSlots_length]; exact Nat.mod_lt _ h),
        hoff, heq n hn, if_pos rfl]
    · have hoff : off a j cap ≠ n := by
        intro hh
        apply hcase
        rw [← hja, hh]
      rw [if_neg hcase, ringSlots_getElem? a cap xs j hj, heq (off a j cap) hd,
        if_neg hoff]
  · rw [List.getElem?_set, ringSlots_getElem?_ge a cap ys j hj,
      if_neg (by have := Nat.mod_lt (a + n) h; omega),
      ringSlots_getElem?_ge a cap xs j hj]

theorem getD_append_ne (xs : List String) (v : String) (d : Nat) (hd : d ≠ xs.length) :
    (xs ++ [v]).getD d "" = xs.getD d "" := by
  rcases Nat.lt_or_ge d xs.length with hlt | hge
  · rw [List.getD_eq_getElem?_getD, List.getD_eq_getElem?_getD,
      List.getElem?_append_left hlt]
  · have hgt : xs.length < d := by omega
    rw [List.getD_eq_getElem?_getD, List.getD_eq_getElem?_getD,
      List.getElem?_eq_none (by simp; omega), List.getElem?_eq_none (by omega)]

theorem getD_append_eq (xs : List String) (v : String) :
    (xs ++ [v]).getD xs.length "" = v := by
  rw [List.getD_eq_getElem?_getD, List.getElem?_append_right (Nat.le_refl _)]
  simp

theorem getD_length_ge (xs : List String) (d : Nat) (hd : xs.length ≤ d) :
    xs.getD d "" = "" := by
  rw [List.getD_eq_getElem?_getD, List.getElem?_eq_none hd]
  rfl

/-- `Push` writes `v` at the slot just past the live range. -/
theorem ringSlots_push (a cap : Nat) (xs : List String) (v : String)
    (h : 0 < cap) (hn : xs.length < cap) :
    (ringSlots a cap xs).set ((a + xs.length) % cap) v = ringSlots a cap (xs ++ [v]) := by
  apply ringSlots_set_at a cap xs.length xs (xs ++ [v]) v h hn
  intro d hd
  by_cases hdn : d = xs.length
  · subst hdn
    rw [if_pos rfl, getD_append_eq]
  · rw [if_neg hdn, getD_append_ne xs v d hdn]

/-- `Pop` clears the last live slot. -/
theorem ringSlots_pop (a cap : Nat) (xs : List String) (x : String)
    (h : 0 < cap) (hn : xs.length < cap) :
    (ringSlots a cap (xs ++ [x])).set ((a + xs.length) % cap) "" = ringSlots a cap xs := by
  apply ringSlots_set_at a cap xs.length (xs ++ [x]) xs "" h hn
  intro d hd
  by_cases hdn : d = xs.length
  · subst hdn
    rw [if_pos rfl, getD_length_ge xs xs.length (Nat.le_refl _)]
  · rw [if_neg hdn, getD_append_ne xs x d hdn]

/-- `Shift` clears the head slot and the anchor advances by one. -/
theorem ringSlots_shift (a cap : Nat) (x : String) (xs : List String)
    (h : 0 < cap) (hn : xs.length < cap) :
    (ringSlots a cap (x :: xs)).set (a % cap) "" = ringSlots (a + 1) cap xs := by
  apply List.ext_getElem?
  intro j
  rcases Nat.lt_or_ge j cap with hj | hj
  · rw [List.getElem?_set, ringSlots_getElem? (a + 1) cap xs j hj]
    by_cases hcase : a % cap = j
    · have hj0 : ((a + 1) + (cap - 1)) % cap = j := by
        have e : (a + 1) + (cap - 1) = a + cap := by omega
        rw [e, Nat.add_mod_right, hcase]
      have hoff : off (a + 1) j cap = cap - 1 := by
        rw [← hj0]
        exact off_of_add (a + 1) cap (cap - 1) h (by omega)
      rw [if_pos hcase, if_pos (by rw [ringSlots_length]; exact Nat.mod_lt _ h),
        hoff, getD_length_ge xs (cap - 1) (by omega)]
    · have hd : off a j cap < cap := off_lt a j cap h
      have hja : (a + off a j cap) % cap = j := add_off a cap j h hj
      have hd0 : off a j cap ≠ 0 := by
        intro h0
        apply hcase
        rw [h0] at hja
        simpa using hja
      have hoff : off (a + 1) j cap = off a j cap - 1 := by
        apply off_eq_of (a + 1) cap (off a j cap - 1) j h (by omega)
        rw [show (a + 1) + (off a j cap - 1) = a + off a j cap from by omega, hja]
      rw [if_neg hcase, ringSlots_getElem? a cap (x :: xs) j hj, hoff]
      obtain ⟨d, hd'⟩ : ∃ d, off a j cap = d + 1 := ⟨off a j cap - 1, by omega⟩
      rw [hd']
      simp
  · rw [List.getElem?_set, ringSlots_getElem?_ge (a + 1) cap xs j hj,
      if_neg (by have := Nat.mod_lt a h; omega),
      ringSlots_getElem?_ge a cap (x :: xs) j hj]

/-- `Unshift` writes `v` one slot before the live range and the anchor moves
back by one. -/
theorem ringSlots_unshift (a cap : Nat) (xs : List String) (v : String)
    (h : 0 < cap) (hn : xs.length < cap) :
    (ringSlots a cap xs).set ((a + (cap - 1)) % cap) v
      = ringSlots (a + (cap - 1)) cap (v :: xs) := by
  apply List.ext_getElem?
  intro j
  rcases Nat.lt_or_ge j cap with hj | hj
  · rw [List.getElem?_set, ringSlots_getElem? (a + (cap - 1)) cap (v :: xs) j hj]
    by_cases hcase : (a + (cap - 1)) % cap = j
    · have hoff : off (a + (cap - 1)) j cap = 0 := by
        rw [← hcase]
        have e : a + (cap - 1) = (a + (cap - 1)) + 0 := by omega
        conv_lhs => rw [e]
        exact off_of_add (a + (cap - 1)) cap 0 h h
      rw [if_pos hcase, if_pos (by rw [ringSlots_length]; exact Nat.mod_lt _ h), hoff]
      simp
    · have hd : off (a + (cap - 1)) j cap < cap := off_lt _ j cap h
      have hja : ((a + (cap - 1)) + off (a + (cap - 1)) j cap) % cap = j :=
        add_off (a + (cap - 1)) cap j h hj
      have hd0 : off (a + (cap - 1)) j cap ≠ 0 := by
        intro h0
        apply hcase
        rw [h0] at hja
        simpa using hja
      have hoff : off a j cap = off (a + (cap - 1)) j cap - 1 := by
        apply off_eq_of a cap (off (a + (cap - 1)) j cap - 1) j h (by omega)
        have e1 : (a + (off (a + (cap - 1)) j cap - 1)) + cap
            = (a + (cap - 1)) + off (a + (cap - 1)) j cap := by omega
        rw [← Nat.add_mod_right (a + (off (a + (cap - 1)) j cap - 1)) cap, e1, hja]
      rw [if_neg hcase, ringSlots_getElem? a cap xs j hj, hoff]
      obtain ⟨d, hd'⟩ : ∃ d, off (a + (cap - 1)) j cap = d + 1 :=
        ⟨off (a + (cap - 1)) j cap - 1, by omega⟩
      rw [hd']
      simp
  · rw [List.getElem?_set, ringSlots_getElem?_ge (a + (cap - 1)) cap (v :: xs) j hj,
      if_neg (by have := Nat.mod_lt (a + (cap - 1)) h; omega),
      ringSlots_getElem?_ge a cap xs j hj]

/-- A reachable state of the `src/stRingBuffer/stRingBuffer.go` revision with
live contents `xs` (front to back): `start` sits one slot before the front,
`end` on the back. -/
def buildV1 (cap st : Nat) (xs : List String) : StRingBuffer :=
  ⟨st, (st + xs.length) % cap, ringSlots (st + 1) cap xs, xs.length⟩

/-- A reachable state of the `src/unnamed/part_002` revision with live
contents `xs` (front to back): `start` sits on the front, `end` one slot past
the back. -/
def buildV2 (cap st : Nat) (xs : List String) : StRingBuffer :=
  ⟨st, (st + xs.length) % cap, ringSlots st cap xs, xs.length⟩

theorem new_eq_buildV1 (c : Nat) : NewStRingBuffer c = buildV1 c 0 [] := by
  simp [NewStRingBuffer, buildV1, ringSlots_nil]

theorem new_eq_buildV2 (c : Nat) : NewStRingBuffer c = buildV2 c 0 [] := by
  simp [NewStRingBuffer, buildV2, ringSlots_nil]

theorem tmod_coe (a b : Nat) : Int.tmod (a : Int) (b : Int) = ((a % b : Nat) : Int) :=
  rfl

theorem goMod_nat (l m : Nat) (h : 0 < l) : goMod l (m : Int) = some (m % l) := by
  unfold goMod
  rw [if_neg (by omega)]
  have h1 : (m : Int) + l = ((m + l : Nat) : Int) := by push_cast; ring
  rw [h1, tmod_coe, Int.toNat_ofNat, Nat.add_mod_right]

theorem goMod_add_one (l m : Nat) (h : 0 < l) :
    goMod l ((m : Int) + 1) = some ((m + 1) % l) := by
  have h1 : (m : Int) + 1 = ((m + 1 : Nat) : Int) := by push_cast; ring
  rw [h1, goMod_nat l (m + 1) h]

theorem goMod_sub_one (l m : Nat) (h : 0 < l) :
    goMod l ((m : Int) - 1) = some ((m + (l - 1)) % l) := by
  unfold goMod
  rw [if_neg (by omega)]
  have h1 : (m : Int) - 1 + l = ((m + (l - 1) : Nat) : Int) := by omega
  rw [h1, tmod_coe, Int.toNat_ofNat]

/-! ### Unfolding the operations on explicit states -/

theorem v1_push1_nonfull (s : StRingBuffer) (v : String)
    (hl : 0 < s.lines.length) (h : s.length ≠ s.lines.length) :
    V1.push1 s v = some { s with
      length := s.length + 1
      «end» := (s.«end» + 1) % s.lines.length
      lines := s.lines.set ((s.«end» + 1) % s.lines.length) v } := by
  have hf : s.Full = false := by
    simp [StRingBuffer.Full]
    exact h
  unfold V1.push1
  rw [hf]
  simp only [Bool.false_eq_true, if_false, Option.pure_def, Option.bind_eq_bind,
    Option.some_bind]
  rw [goMod_add_one s.lines.length s.«end» hl]

theorem v1_push1_full (s : StRingBuffer) (v : String)
    (hl : 0 < s.lines.length) (h : s.length = s.lines.length) :
    V1.push1 s v = some { s with
      start := (s.start + 1) % s.lines.length
      «end» := (s.«end» + 1) % s.lines.length
      lines := s.lines.set ((s.«end» + 1) % s.lines.length) v } := by
  have hf : s.Full = true := by
    simp [StRingBuffer.Full]
    exact h
  unfold V1.push1
  rw [hf, if_pos rfl]
  rw [goMod_add_one s.lines.length s.start hl]
  simp only [Option.pure_def, Option.bind_eq_bind, Option.some_bind]
  rw [goMod_add_one s.lines.length s.«end» hl]

theorem v1_pop_eq (s : StRingBuffer)
    (hl : 0 < s.lines.length) (h : s.length ≠ 0) (hend : s.«end» < s.lines.length) :
    V1.Pop s = some (s.lines.getD s.«end» "", { s with
      length := s.length - 1
      lines := s.lines.set s.«end» ""
      «end» := (s.«end» + (s.lines.length - 1)) % s.lines.length }) := by
  have he : s.Empty = false := by
    simp [StRingBuffer.Empty]
    exact h
  have hget : s.lines.get? s.«end» = some (s.lines.getD s.«end» "") := by
    rw [List.get?_eq_getElem?, List.getD_eq_getElem?_getD,
      List.getElem?_eq_getElem hend]
    rfl
  unfold V1.Pop
  rw [he]
  simp only [Bool.false_eq_true, if_false]
  rw [hget]
  simp only [List.length_set]
  rw [goMod_sub_one s.lines.length s.«end» hl]

theorem v1_shift_eq (s : StRingBuffer)
    (hl : 0 < s.lines.length) (h : s.length ≠ 0) :
    V1.Shift s = some (s.lines.getD ((s.start + 1) % s.lines.length) "", { s with
      length := s.length - 1
      start := (s.start + 1) % s.lines.length
      lines := s.lines.set ((s.start + 1) % s.lines.length) "" }) := by
  have he : s.Empty = false := by
    simp [StRingBuffer.Empty]
    exact h
  have hget : s.lines.get? ((s.start + 1) % s.lines.length)
      = some (s.lines.getD ((s.start + 1) % s.lines.length) "") := by
    rw [List.get?_eq_getElem?, List.getD_eq_getElem?_getD,
      List.getElem?_eq_getElem (Nat.mod_lt _ hl)]
    rfl
  unfold V1.Shift
  rw [he]
  simp only [Bool.false_eq_true, if_false]
  rw [goMod_add_one s.lines.length s.start hl]
  simp only [hget]

theorem v1_unshift1_nonfull (s : StRingBuffer) (v : String)
    (hl : 0 < s.lines.length) (h : s.length ≠ s.lines.length)
    (hstart : s.start < s.lines.length) :
    V1.unshift1 s v = some { s with
      length := s.length + 1
      lines := s.lines.set s.start v
      start := (s.start + (s.lines.length - 1)) % s.lines.length } := by
  have hf : s.Full = false := by
    simp [StRingBuffer.Full]
    exact h
  unfold V1.unshift1
  rw [hf]
  simp only [Bool.false_eq_true, if_false, Option.pure_def, Option.bind_eq_bind,
    Option.some_bind]
  rw [if_pos hstart]
  simp only [List.length_set]
  rw [goMod_sub_one s.lines.length s.start hl]

theorem v2_push1_nonfull (s : StRingBuffer) (v : String)
    (hl : 0 < s.lines.length) (h : s.length ≠ s.lines.length)
    (hend : s.«end» < s.lines.length) :
    V2.push1 s v = some { s with
      length := s.length + 1
      lines := s.lines.set s.«end» v
      «end» := (s.«end» + 1) % s.lines.length } := by
  have hf : s.Full = false := by
    simp [StRingBuffer.Full]
    exact h
  unfold V2.push1
  rw [hf]
  simp only [Bool.false_eq_true, if_false, Option.pure_def, Option.bind_eq_bind,
    Option.some_bind]
  rw [if_pos hend]
  simp only [List.length_set]
  rw [goMod_add_one s.lines.length s.«end» hl]

theorem v2_pop_eq (s : StRingBuffer)
    (hl : 0 < s.lines.length) (h : s.length ≠ 0) :
    V2.Pop s = some (s.lines.getD ((s.«end» + (s.lines.length - 1)) % s.lines.length) "",
      { s with
        length := s.length - 1
        «end» := (s.«end» + (s.lines.length - 1)) % s.lines.length
        lines := s.lines.set ((s.«end» + (s.lines.length - 1)) % s.lines.length) "" }) := by
  have he : s.Empty = false := by
    simp [StRingBuffer.Empty]
    exact h
  have hget : s.lines.get? ((s.«end» + (s.lines.length - 1)) % s.lines.length)
      = some (s.lines.getD ((s.«end» + (s.lines.length - 1)) % s.lines.length) "") := by
    rw [List.get?_eq_getElem?, List.getD_eq_getElem?_getD,
      List.getElem?_eq_getElem (Nat.mod_lt _ hl)]
    rfl
  unfold V2.Pop
  rw [he]
  simp only [Bool.false_eq_true, if_false]
  rw [goMod_sub_one s.lines.length s.«end» hl]
  simp only [hget]

theorem v2_shift_eq (s : StRingBuffer)
    (hl : 0 < s.lines.length) (h : s.length ≠ 0) (hstart : s.start < s.lines.length) :
    V2.Shift s = some (s.lines.getD s.start "", { s with
      length := s.length - 1
      lines := s.lines.set s.start ""
      start := (s.start + 1) % s.lines.length }) := by
  have he : s.Empty = false := by
    simp [StRingBuffer.Empty]
    exact h
  have hget : s.lines.get? s.start = some (s.lines.getD s.start "") := by
    rw [List.get?_eq_getElem?, List.getD_eq_getElem?_getD,
      List.getElem?_eq_getElem hstart]
    rfl
  unfold V2.Shift
  rw [he]
  simp only [Bool.false_eq_true, if_false]
  rw [hget]
  simp only [List.length_set]
  rw [goMod_add_one s.lines.length s.start hl]

theorem v2_unshift1_nonfull (s : StRingBuffer) (v : String)
    (hl : 0 < s.lines.length) (h : s.length ≠ s.lines.length) :
    V2.unshift1 s v = some { s with
      length := s.length + 1
      start := (s.start + (s.lines.length - 1)) % s.lines.length
      lines := s.lines.set ((s.start + (s.lines.length - 1)) % s.lines.length) v } := by
  have hf : s.Full = false := by
    simp [StRingBuffer.Full]
    exact h
  unfold V2.unshift1
  rw [hf]
  simp only [Bool.false_eq_true, if_false, Option.pure_def, Option.bind_eq_bind,
    Option.some_bind]
  rw [goMod_sub_one s.lines.length s.start hl]

theorem ringSlots_getD (a cap : Nat) (xs : List String) (i : Nat)
    (h : 0 < cap) (hi : i < cap) :
    (ringSlots a cap xs).getD ((a + i) % cap) "" = xs.getD i "" := by
  rw [List.getD_eq_getElem?_getD, ringSlots_getElem? a cap xs _ (Nat.mod_lt _ h),
    off_of_add a cap i h hi]
  rfl

/-! ### The operations on ring-layout states -/

theorem v1_push_build_nonfull (cap st : Nat) (xs : List String) (v : String)
    (hst : st < cap) (hn : xs.length < cap) :
    V1.push1 (buildV1 cap st xs) v = some (buildV1 cap st (xs ++ [v])) := by
  have hcap : 0 < cap := by omega
  have hl : 0 < (buildV1 cap st xs).lines.length := by
    simp [buildV1, ringSlots_length]
    omega
  have hlen : (buildV1 cap st xs).length ≠ (buildV1 cap st xs).lines.length := by
    simp [buildV1, ringSlots_length]
    omega
  rw [v1_push1_nonfull (buildV1 cap st xs) v hl hlen]
  simp only [buildV1, ringSlots_length, Option.some.injEq, StRingBuffer.mk.injEq,
    List.length_append, List.length_cons, List.length_nil, true_and, and_true]
  have hidx : ((st + xs.length) % cap + 1) % cap = ((st + 1) + xs.length) % cap := by
    rw [Nat.mod_add_mod]
    congr 1
    omega
  rw [hidx, ringSlots_push (st + 1) cap xs v hcap hn]
  exact ⟨by congr 1; omega, rfl⟩

theorem v1_push_build_full (cap st : Nat) (xs : List String) (v : String)
    (hst : st < cap) (hn : xs.length = cap) :
    V1.push1 (buildV1 cap st xs) v
      = some (buildV1 cap ((st + 1) % cap) (xs.tail ++ [v])) := by
  have hcap : 0 < cap := by omega
  rcases xs with _ | ⟨x, xs'⟩
  · simp at hn
    omega
  have hc : xs'.length + 1 = cap := by simpa using hn
  have hl : 0 < (buildV1 cap st (x :: xs')).lines.length := by
    simp [buildV1, ringSlots_length]
    omega
  have hlen : (buildV1 cap st (x :: xs')).length
      = (buildV1 cap st (x :: xs')).lines.length := by
    simp [buildV1, ringSlots_length]
    omega
  rw [v1_push1_full (buildV1 cap st (x :: xs')) v hl hlen]
  simp only [buildV1, ringSlots_length, Option.some.injEq, StRingBuffer.mk.injEq,
    List.length_append, List.length_cons, List.length_nil, List.tail_cons,
    true_and, and_true]
  have hidx : ((st + (xs'.length + 1)) % cap + 1) % cap = (st + 1) % cap := by
    rw [Nat.mod_add_mod,
      show st + (xs'.length + 1) + 1 = (st + 1) + cap from by omega,
      Nat.add_mod_right]
  refine ⟨?_, ?_⟩
  · rw [hidx, Nat.mod_add_mod,
      show st + 1 + (xs'.length + (0 + 1)) = (st + 1) + cap from by omega,
      Nat.add_mod_right]
  · rw [hidx]
    have hset : ((ringSlots (st + 1) cap (x :: xs')).set ((st + 1) % cap) "").set
        ((st + 1) % cap) v = (ringSlots (st + 1) cap (x :: xs')).set ((st + 1) % cap) v :=
      List.set_set "" v _ _
    rw [← hset, ringSlots_shift (st + 1) cap x xs' hcap (by omega),
      show (st + 1) % cap = ((st + 1 + 1) + xs'.length) % cap from by
        rw [show (st + 1 + 1) + xs'.length = (st + 1) + cap from by omega,
          Nat.add_mod_right],
      ringSlots_push (st + 1 + 1) cap xs' v hcap (by omega)]
    apply ringSlots_congr
    rw [Nat.mod_add_mod,
      show st + 1 + 1 + xs'.length + 1 = (st + 1 + 1) + cap from by omega,
      Nat.add_mod_right]

theorem v1_pop_build (cap st : Nat) (xs : List String) (x : String)
    (hst : st < cap) (hn : xs.length + 1 ≤ cap) :
    V1.Pop (buildV1 cap st (xs ++ [x])) = some (x, buildV1 cap st xs) := by
  have hcap : 0 < cap := by omega
  have hl : 0 < (buildV1 cap st (xs ++ [x])).lines.length := by
    simp [buildV1, ringSlots_length]
    omega
  have hlen : (buildV1 cap st (xs ++ [x])).length ≠ 0 := by
    simp [buildV1]
  have hend : (buildV1 cap st (xs ++ [x])).«end»
      < (buildV1 cap st (xs ++ [x])).lines.length := by
    simp only [buildV1, ringSlots_length]
    exact Nat.mod_lt _ hcap
  rw [v1_pop_eq (buildV1 cap st (xs ++ [x])) hl hlen hend]
  simp only [buildV1, ringSlots_length, Option.some.injEq, Prod.mk.injEq,
    StRingBuffer.mk.injEq, List.length_append, List.length_cons, List.length_nil,
    true_and, and_true]
  have hidx : (st + (xs.length + (0 + 1))) % cap = ((st + 1) + xs.length) % cap := by
    congr 1
    omega
  refine ⟨?_, ?_, ?_, ?_⟩
  · rw [hidx, ringSlots_getD (st + 1) cap (xs ++ [x]) xs.length hcap (by omega),
      getD_append_eq]
  · rw [Nat.mod_add_mod,
      show st + (xs.length + (0 + 1)) + (cap - 1) = (st + xs.length) + cap from by omega,
      Nat.add_mod_right]
  · rw [hidx, ringSlots_pop (st + 1) cap xs x hcap (by omega)]
  · omega

theorem v1_shift_build (cap st : Nat) (x : String) (xs : List String)
    (hst : st < cap) (hn : xs.length + 1 ≤ cap) :
    V1.Shift (buildV1 cap st (x :: xs)) = some (x, buildV1 cap ((st + 1) % cap) xs) := by
  have hcap : 0 < cap := by omega
  have hl : 0 < (buildV1 cap st (x :: xs)).lines.length := by
    simp [buildV1, ringSlots_length]
    omega
  have hlen : (buildV1 cap st (x :: xs)).length ≠ 0 := by
    simp [buildV1]
  rw [v1_shift_eq (buildV1 cap st (x :: xs)) hl hlen]
  simp only [buildV1, ringSlots_length, Option.some.injEq, Prod.mk.injEq,
    StRingBuffer.mk.injEq, List.length_cons, true_and, and_true]
  refine ⟨?_, ?_, ?_, ?_⟩
  · rw [show (st + 1) % cap = ((st + 1) + 0) % cap from by simp,
      ringSlots_getD (st + 1) cap (x :: xs) 0 hcap hcap]
    rfl
  · rw [Nat.mod_add_mod]
    congr 1
    omega
  · rw [ringSlots_shift (st + 1) cap x xs hcap (by omega)]
    apply ringSlots_congr
    rw [Nat.mod_add_mod]
  · omega

theorem v1_unshift_build (cap st : Nat) (xs : List String) (v : String)
    (hst : st < cap) (hn : xs.length < cap) :
    V1.unshift1 (buildV1 cap st xs) v
      = some (buildV1 cap ((st + (cap - 1)) % cap) (v :: xs)) := by
  have hcap : 0 < cap := by omega
  have hl : 0 < (buildV1 cap st xs).lines.length := by
    simp [buildV1, ringSlots_length]
    omega
  have hlen : (buildV1 cap st xs).length ≠ (buildV1 cap st xs).lines.length := by
    simp [buildV1, ringSlots_length]
    omega
  have hstart : (buildV1 cap st xs).start < (buildV1 cap st xs).lines.length := by
    simp only [buildV1, ringSlots_length]
    exact hst
  rw [v1_unshift1_nonfull (buildV1 cap st xs) v hl hlen hstart]
  simp only [buildV1, ringSlots_length, Option.some.injEq, StRingBuffer.mk.injEq,
    List.length_cons, true_and, and_true]
  refine ⟨?_, ?_⟩
  · rw [Nat.mod_add_mod,
      show (st + (cap - 1)) + (xs.length + 1) = (st + xs.length) + cap from by omega,
      Nat.add_mod_right]
  · have key := ringSlots_unshift (st + 1) cap xs v hcap hn
    rw [show ((st + 1) + (cap - 1)) % cap = st from by
        rw [show (st + 1) + (cap - 1) = st + cap from by omega,
          Nat.add_mod_right, Nat.mod_eq_of_lt hst]] at key
    rw [key]
    apply ringSlots_congr
    rw [Nat.mod_add_mod,
      show st + (cap - 1) + 1 = st + cap from by omega,
      show (st + 1) + (cap - 1) = st + cap from by omega]

theorem v2_push_build (cap st : Nat) (xs : List String) (v : String)
    (hst : st < cap) (hn : xs.length < cap) :
    V2.push1 (buildV2 cap st xs) v = some (buildV2 cap st (xs ++ [v])) := by
  have hcap : 0 < cap := by omega
  have hl : 0 < (buildV2 cap st xs).lines.length := by
    simp [buildV2, ringSlots_length]
    omega
  have hlen : (buildV2 cap st xs).length ≠ (buildV2 cap st xs).lines.length := by
    simp [buildV2, ringSlots_length]
    omega
  have hend : (buildV2 cap st xs).«end» < (buildV2 cap st xs).lines.length := by
    simp only [buildV2, ringSlots_length]
    exact Nat.mod_lt _ hcap
  rw [v2_push1_nonfull (buildV2 cap st xs) v hl hlen hend]
  simp only [buildV2, ringSlots_length, Option.some.injEq, StRingBuffer.mk.injEq,
    List.length_append, List.length_cons, List.length_nil, true_and, and_true]
  refine ⟨?_, ?_⟩
  · rw [Nat.mod_add_mod]
    congr 1
  · rw [ringSlots_push st cap xs v hcap hn]

theorem v2_pop_build (cap st : Nat) (xs : List String) (x : String)
    (hst : st < cap) (hn : xs.length + 1 ≤ cap) :
    V2.Pop (buildV2 cap st (xs ++ [x])) = some (x, buildV2 cap st xs) := by
  have hcap : 0 < cap := by omega
  have hl : 0 < (buildV2 cap st (xs ++ [x])).lines.length := by
    simp [buildV2, ringSlots_length]
    omega
  have hlen : (buildV2 cap st (xs ++ [x])).length ≠ 0 := by
    simp [buildV2]
  rw [v2_pop_eq (buildV2 cap st (xs ++ [x])) hl hlen]
  simp only [buildV2, ringSlots_length, Option.some.injEq, Prod.mk.injEq,
    StRingBuffer.mk.injEq, List.length_append, List.length_cons, List.length_nil,
    true_and, and_true]
  have hidx : ((st + (xs.length + (0 + 1))) % cap + (cap - 1)) % cap
      = (st + xs.length) % cap := by
    rw [Nat.mod_add_mod,
      show st + (xs.length + (0 + 1)) + (cap - 1) = (st + xs.length) + cap from by omega,
      Nat.add_mod_right]
  refine ⟨?_, ?_, ?_, ?_⟩
  · rw [hidx, ringSlots_getD st cap (xs ++ [x]) xs.length hcap (by omega),
      getD_append_eq]
  · rw [hidx]
  · rw [hidx, ringSlots_pop st cap xs x hcap (by omega)]
  · omega

theorem v2_shift_build (cap st : Nat) (x : String) (xs : List String)
    (hst : st < cap) (hn : xs.length + 1 ≤ cap) :
    V2.Shift (buildV2 cap st (x :: xs)) = some (x, buildV2 cap ((st + 1) % cap) xs) := by
  have hcap : 0 < cap := by omega
  have hl : 0 < (buildV2 cap st (x :: xs)).lines.length := by
    simp [buildV2, ringSlots_length]
    omega
  have hlen : (buildV2 cap st (x :: xs)).length ≠ 0 := by
    simp [buildV2]
  have hstart : (buildV2 cap st (x :: xs)).start < (buildV2 cap st (x :: xs)).lines.length := by
    simp only [buildV2, ringSlots_length]
    exact hst
  rw [v2_shift_eq (buildV2 cap st (x :: xs)) hl hlen hstart]
  simp only [buildV2, ringSlots_length, Option.some.injEq, Prod.mk.injEq,
    StRingBuffer.mk.injEq, List.length_cons, true_and, and_true]
  have kv := ringSlots_getD st cap (x :: xs) 0 hcap hcap
  rw [show (st + 0) % cap = st from by rw [Nat.add_zero, Nat.mod_eq_of_lt hst]] at kv
  have key := ringSlots_shift st cap x xs hcap (by omega)
  rw [Nat.mod_eq_of_lt hst] at key
  refine ⟨?_, ?_, ?_, ?_⟩
  · rw [kv]
    rfl
  · rw [Nat.mod_add_mod]
    congr 1
    omega
  · rw [key]
    apply ringSlots_congr
    exact (Nat.mod_mod_of_dvd _ (dvd_refl cap)).symm
  · omega

theorem v2_unshift_build (cap st : Nat) (xs : List String) (v : String)
    (hst : st < cap) (hn : xs.length < cap) :
    V2.unshift1 (buildV2 cap st xs) v
      = some (buildV2 cap ((st + (cap - 1)) % cap) (v :: xs)) := by
  have hcap : 0 < cap := by omega
  have hl : 0 < (buildV2 cap st xs).lines.length := by
    simp [buildV2, ringSlots_length]
    omega
  have hlen : (buildV2 cap st xs).length ≠ (buildV2 cap st xs).lines.length := by
    simp [buildV2, ringSlots_length]
    omega
  rw [v2_unshift1_nonfull (buildV2 cap st xs) v hl hlen]
  simp only [buildV2, ringSlots_length, Option.some.injEq, StRingBuffer.mk.injEq,
    List.length_cons, true_and, and_true]
  refine ⟨?_, ?_⟩
  · rw [Nat.mod_add_mod,
      show st + (cap - 1) + (xs.length + 1) = (st + xs.length) + cap from by omega,
      Nat.add_mod_right]
  · rw [ringSlots_unshift st cap xs v hcap hn]
    apply ringSlots_congr
    exact (Nat.mod_mod_of_dvd _ (dvd_refl cap)).symm

/-! ### Folded operations on ring-layout states -/

theorem v1_push_list (cap st : Nat) (xs ws : List String)
    (hst : st < cap) (hn : xs.length + ws.length ≤ cap) :
    V1.Push (buildV1 cap st xs) ws = some (buildV1 cap st (xs ++ ws)) := by
  induction ws generalizing xs with
  | nil => simp [V1.Push]
  | cons w ws ih =>
    show List.foldlM V1.push1 (buildV1 cap st xs) (w :: ws) = _
    rw [List.foldlM_cons, v1_push_build_nonfull cap st xs w hst (by simp at hn; omega)]
    simp only [Option.pure_def, Option.bind_eq_bind, Option.some_bind]
    have := ih (xs ++ [w]) (by simp at hn ⊢; omega)
    rw [show ws.foldlM V1.push1 (buildV1 cap st (xs ++ [w]))
        = V1.Push (buildV1 cap st (xs ++ [w])) ws from rfl, this]
    simp

theorem v1_unshift_list (cap st : Nat) (xs ws : List String)
    (hst : st < cap) (hn : xs.length + ws.length ≤ cap) :
    ∃ st', st' < cap ∧
      V1.Unshift (buildV1 cap st xs) ws = some (buildV1 cap st' (ws.reverse ++ xs)) := by
  induction ws generalizing xs st with
  | nil => exact ⟨st, hst, by simp [V1.Unshift]⟩
  | cons w ws ih =>
    have hcap : 0 < cap := by omega
    obtain ⟨st', hst', hrec⟩ := ih ((st + (cap - 1)) % cap) (w :: xs)
      (Nat.mod_lt _ hcap) (by simp at hn ⊢; omega)
    refine ⟨st', hst', ?_⟩
    show List.foldlM V1.unshift1 (buildV1 cap st xs) (w :: ws) = _
    rw [List.foldlM_cons,
      v1_unshift_build cap st xs w hst (by simp at hn; omega)]
    simp only [Option.pure_def, Option.bind_eq_bind, Option.some_bind]
    rw [show ws.foldlM V1.unshift1 (buildV1 cap ((st + (cap - 1)) % cap) (w :: xs))
        = V1.Unshift (buildV1 cap ((st + (cap - 1)) % cap) (w :: xs)) ws from rfl, hrec]
    simp

theorem v1_shiftN_build (cap st : Nat) (xs : List String)
    (hst : st < cap) (hn : xs.length ≤ cap) :
    ∃ st', st' < cap ∧
      V1.shiftN (buildV1 cap st xs) xs.length = some (xs, buildV1 cap st' []) := by
  induction xs generalizing st with
  | nil => exact ⟨st, hst, rfl⟩
  | cons x xs ih =>
    have hcap : 0 < cap := by omega
    obtain ⟨st', hst', hrec⟩ := ih ((st + 1) % cap) (Nat.mod_lt _ hcap)
      (by simp at hn; omega)
    refine ⟨st', hst', ?_⟩
    show V1.shiftN (buildV1 cap st (x :: xs)) (xs.length + 1) = _
    unfold V1.shiftN
    rw [v1_shift_build cap st x xs hst (by simp at hn; omega)]
    simp only [Option.pure_def, Option.bind_eq_bind, Option.some_bind]
    rw [hrec]
    rfl

theorem v1_popN_build (cap st : Nat) (xs : List String)
    (hst : st < cap) (hn : xs.length ≤ cap) :
    V1.popN (buildV1 cap st xs) xs.length = some (xs.reverse, buildV1 cap st []) := by
  induction xs using List.reverseRecOn with
  | nil => rfl
  | append_singleton ys y ih =>
    show V1.popN (buildV1 cap st (ys ++ [y])) (ys ++ [y]).length = _
    rw [List.length_append, List.length_cons, List.length_nil, Nat.zero_add]
    unfold V1.popN
    rw [v1_pop_build cap st ys y hst (by simp at hn; omega)]
    simp only [Option.pure_def, Option.bind_eq_bind, Option.some_bind]
    rw [ih (by simp at hn; omega)]
    simp

theorem v1_mapT_build (cap st : Nat) (ys zs : List String) (f : String → String)
    (hst : st < cap) (hn : ys.length + zs.length ≤ cap) :
    V1.mapStepsT ys.length f (buildV1 cap st (ys ++ zs))
      = some (buildV1 cap ((st + ys.length) % cap) (zs ++ ys.map f), ys) := by
  induction ys generalizing st zs with
  | nil => simp [V1.mapStepsT, Nat.mod_eq_of_lt hst]
  | cons y ys ih =>
    have hcap : 0 < cap := by omega
    show V1.mapStepsT (ys.length + 1) f (buildV1 cap st (y :: (ys ++ zs))) = _
    unfold V1.mapStepsT
    rw [v1_shift_build cap st y (ys ++ zs) hst (by simp at hn ⊢; omega)]
    simp only [Option.pure_def, Option.bind_eq_bind, Option.some_bind]
    rw [v1_push_build_nonfull cap ((st + 1) % cap) (ys ++ zs) (f y)
      (Nat.mod_lt _ hcap) (by simp at hn ⊢; omega)]
    simp only [Option.some_bind]
    rw [show ys ++ zs ++ [f y] = ys ++ (zs ++ [f y]) from by simp,
      ih ((st + 1) % cap) (zs ++ [f y]) (Nat.mod_lt _ hcap) (by simp at hn ⊢; omega)]
    simp only [Option.some_bind]
    have hs : ((st + 1) % cap + ys.length) % cap = (st + (ys.length + 1)) % cap := by
      rw [Nat.mod_add_mod]
      congr 1
      omega
    rw [hs, show (zs ++ [f y]) ++ ys.map f = zs ++ (f y :: ys.map f) from by simp]
    rfl

theorem v1_mapSteps_eq_T (n : Nat) (f : String → String) (s : StRingBuffer) :
    V1.mapSteps n f s = (V1.mapStepsT n f s).map Prod.fst := by
  induction n generalizing s with
  | zero => rfl
  | succ n ih =>
    unfold V1.mapSteps V1.mapStepsT
    simp only [Option.pure_def, Option.bind_eq_bind]
    rcases hs : V1.Shift s with _ | ⟨r, s1⟩
    · simp
    · simp only [Option.some_bind]
      rcases hp : V1.push1 s1 (f r) with _ | s2
      · simp
      · simp only [Option.some_bind, ih s2]
        rcases V1.mapStepsT n f s2 with _ | ⟨s3, t⟩
        · simp
        · simp

theorem v2_shiftN_build (cap st : Nat) (xs : List String)
    (hst : st < cap) (hn : xs.length ≤ cap) :
    ∃ st', st' < cap ∧
      V2.shiftN (buildV2 cap st xs) xs.length = some (xs, buildV2 cap st' []) := by
  induction xs generalizing st with
  | nil => exact ⟨st, hst, rfl⟩
  | cons x xs ih =>
    have hcap : 0 < cap := by omega
    obtain ⟨st', hst', hrec⟩ := ih ((st + 1) % cap) (Nat.mod_lt _ hcap)
      (by simp at hn; omega)
    refine ⟨st', hst', ?_⟩
    show V2.shiftN (buildV2 cap st (x :: xs)) (xs.length + 1) = _
    unfold V2.shiftN
    rw [v2_shift_build cap st x xs hst (by simp at hn; omega)]
    simp only [Option.pure_def, Option.bind_eq_bind, Option.some_bind]
    rw [hrec]
    rfl

theorem v2_mapT_build (cap st : Nat) (ys zs : List String) (f : String → String)
    (hst : st < cap) (hn : ys.length + zs.length ≤ cap) :
    V2.mapStepsT ys.length f (buildV2 cap st (ys ++ zs))
      = some (buildV2 cap ((st + ys.length) % cap) (zs ++ ys.map f), ys) := by
  induction ys generalizing st zs with
  | nil => simp [V2.mapStepsT, Nat.mod_eq_of_lt hst]
  | cons y ys ih =>
    have hcap : 0 < cap := by omega
    show V2.mapStepsT (ys.length + 1) f (buildV2 cap st (y :: (ys ++ zs))) = _
    unfold V2.mapStepsT
    rw [v2_shift_build cap st y (ys ++ zs) hst (by simp at hn ⊢; omega)]
    simp only [Option.pure_def, Option.bind_eq_bind, Option.some_bind]
    rw [v2_push_build cap ((st + 1) % cap) (ys ++ zs) (f y)
      (Nat.mod_lt _ hcap) (by simp at hn ⊢; omega)]
    simp only [Option.some_bind]
    rw [show ys ++ zs ++ [f y] = ys ++ (zs ++ [f y]) from by simp,
      ih ((st + 1) % cap) (zs ++ [f y]) (Nat.mod_lt _ hcap) (by simp at hn ⊢; omega)]
    simp only [Option.some_bind]
    have hs : ((st + 1) % cap + ys.length) % cap = (st + (ys.length + 1)) % cap := by
      rw [Nat.mod_add_mod]
      congr 1
      omega
    rw [hs, show (zs ++ [f y]) ++ ys.map f = zs ++ (f y :: ys.map f) from by simp]
    rfl

theorem v2_mapSteps_eq_T (n : Nat) (f : String → String) (s : StRingBuffer) :
    V2.mapSteps n f s = (V2.mapStepsT n f s).map Prod.fst := by
  induction n generalizing s with
  | zero => rfl
  | succ n ih =>
    unfold V2.mapSteps V2.mapStepsT
    simp only [Option.pure_def, Option.bind_eq_bind]
    rcases hs : V2.Shift s with _ | ⟨r, s1⟩
    · simp
    · simp only [Option.some_bind]
      rcases hp : V2.push1 s1 (f r) with _ | s2
      · simp
      · simp only [Option.some_bind, ih s2]
        rcases V2.mapStepsT n f s2 with _ | ⟨s3, t⟩
        · simp
        · simp

theorem v2_mapRT_build (cap st : Nat) (zs ys : List String) (f : String → String)
    (hst : st < cap) (hn : zs.length + ys.length ≤ cap) :
    V2.mapRStepsT ys.length f (buildV2 cap st (zs ++ ys))
      = some (buildV2 cap ((st + ys.length * (cap - 1)) % cap) (ys.map f ++ zs),
          ys.reverse) := by
  induction ys using List.reverseRecOn generalizing st zs with
  | nil => simp [V2.mapRStepsT, Nat.mod_eq_of_lt hst]
  | append_singleton ys y ih =>
    have hcap : 0 < cap := by omega
    show V2.mapRStepsT ((ys ++ [y]).length) f _ = _
    rw [List.length_append, List.length_cons, List.length_nil, Nat.zero_add]
    unfold V2.mapRStepsT
    rw [show zs ++ (ys ++ [y]) = (zs ++ ys) ++ [y] from by simp,
      v2_pop_build cap st (zs ++ ys) y hst (by simp at hn ⊢; omega)]
    simp only [Option.pure_def, Option.bind_eq_bind, Option.some_bind]
    rw [v2_unshift_build cap st (zs ++ ys) (f y) hst (by simp at hn ⊢; omega)]
    simp only [Option.some_bind]
    rw [show f y :: (zs ++ ys) = (f y :: zs) ++ ys from rfl,
      ih ((st + (cap - 1)) % cap) (f y :: zs) (Nat.mod_lt _ hcap)
        (by simp at hn ⊢; omega)]
    simp only [Option.some_bind]
    have hs : ((st + (cap - 1)) % cap + ys.length * (cap - 1)) % cap
        = (st + (ys.length + 1) * (cap - 1)) % cap := by
      rw [Nat.mod_add_mod, Nat.succ_mul]
      congr 1
      omega
    rw [hs, show ys.map f ++ (f y :: zs) = (ys.map f ++ [f y]) ++ zs from by simp]
    simp

theorem v2_mapRSteps_eq_T (n : Nat) (f : String → String) (s : StRingBuffer) :
    V2.mapRSteps n f s = (V2.mapRStepsT n f s).map Prod.fst := by
  induction n generalizing s with
  | zero => rfl
  | succ n ih =>
    unfold V2.mapRSteps V2.mapRStepsT
    simp only [Option.pure_def, Option.bind_eq_bind]
    rcases hs : V2.Pop s with _ | ⟨r, s1⟩
    · simp
    · simp only [Option.some_bind]
      rcases hp : V2.unshift1 s1 (f r) with _ | s2
      · simp
      · simp only [Option.some_bind, ih s2]
        rcases V2.mapRStepsT n f s2 with _ | ⟨s3, t⟩
        · simp
        · simp

/-! ### Reading contiguous segments of a ring -/

theorem ringSlots_drop_take (a cap k : Nat) (xs : List String) (h : 0 < cap)
    (ha : a < cap) (hk : a + k ≤ cap) (hkn : k ≤ xs.length) :
    ((ringSlots a cap xs).drop a).take k = xs.take k := by
  apply List.ext_getElem?
  intro i
  rw [List.getElem?_take, List.getElem?_take]
  by_cases hi : i < k
  · rw [if_pos hi, if_pos hi, List.getElem?_drop]
    have hlt : a + i < cap := by omega
    rw [ringSlots_getElem? a cap xs (a + i) hlt]
    have hoff : off a (a + i) cap = i := by
      apply off_eq_of a cap i (a + i) h (by omega)
      exact Nat.mod_eq_of_lt hlt
    rw [hoff, List.getD_eq_getElem?_getD,
      List.getElem?_eq_getElem (show i < xs.length by omega)]
    rfl
  · rw [if_neg hi, if_neg hi]

theorem ringSlots_take_wrap (a cap e : Nat) (xs : List String) (h : 0 < cap)
    (ha : a < cap) (he : e ≤ a) (hlen : (cap - a) + e ≤ xs.length) :
    (ringSlots a cap xs).take e = (xs.drop (cap - a)).take e := by
  apply List.ext_getElem?
  intro i
  rw [List.getElem?_take, List.getElem?_take]
  by_cases hi : i < e
  · rw [if_pos hi, if_pos hi, List.getElem?_drop]
    have hicap : i < cap := by omega
    rw [ringSlots_getElem? a cap xs i hicap]
    have hoff : off a i cap = (cap - a) + i := by
      apply off_eq_of a cap ((cap - a) + i) i h (by omega)
      rw [show a + ((cap - a) + i) = i + cap from by omega, Nat.add_mod_right,
        Nat.mod_eq_of_lt hicap]
    rw [hoff, List.getD_eq_getElem?_getD,
      List.getElem?_eq_getElem (show (cap - a) + i < xs.length by omega)]
    rfl
  · rw [if_neg hi, if_neg hi]

theorem ringSlots_zero (cap : Nat) (xs : List String) (h : 0 < cap)
    (hlen : xs.length = cap) :
    ringSlots 0 cap xs = xs := by
  apply List.ext_getElem?
  intro j
  rcases Nat.lt_or_ge j cap with hj | hj
  · rw [ringSlots_getElem? 0 cap xs j hj]
    have hoff : off 0 j cap = j := by
      apply off_eq_of 0 cap j j h hj
      rw [Nat.zero_add, Nat.mod_eq_of_lt hj]
    rw [hoff, List.getD_eq_getElem?_getD,
      List.getElem?_eq_getElem (show j < xs.length by omega)]
    rfl
  · rw [ringSlots_getElem?_ge 0 cap xs j hj, List.getElem?_eq_none (by omega)]

theorem v2_unslice_build (xs : List String) (h : xs ≠ []) :
    V2.Unslice xs = some (buildV2 xs.length 0 xs) := by
  have hl : 0 < xs.length := List.length_pos.mpr h
  unfold V2.Unslice
  simp only [goMod_nat xs.length xs.length hl, buildV2, Nat.zero_add,
    ringSlots_zero xs.length xs hl rfl]

theorem v2_slice_build (cap st : Nat) (xs : List String)
    (hst : st < cap) (hn : xs.length ≤ cap) :
    V2.Slice (buildV2 cap st xs) = some xs := by
  have hcap : 0 < cap := by omega
  rcases Nat.eq_zero_or_pos xs.length with h0 | hpos
  · have hxs : xs = [] := List.length_eq_zero.mp h0
    subst hxs
    unfold V2.Slice
    simp [StRingBuffer.Empty, StRingBuffer.Length, buildV2]
  · have hne : (buildV2 cap st xs).Empty = false := by
      simp only [StRingBuffer.Empty, buildV2, beq_eq_false_iff_ne, ne_eq]
      omega
    unfold V2.Slice
    rw [hne]
    simp only [Bool.false_eq_true, if_false, StRingBuffer.Length, buildV2,
      ringSlots_length, List.length_replicate, List.length_drop]
    rcases Nat.lt_or_ge (st + xs.length) cap with hcase | hcase
    · have hend : (st + xs.length) % cap = st + xs.length := Nat.mod_eq_of_lt hcase
      rw [hend, if_pos (by omega), if_pos (by omega)]
      refine congrArg some ?_
      rw [show st + xs.length + 1 - st = xs.length + 1 from by omega]
      unfold V2.goCopy
      simp only [List.length_replicate]
      rw [List.take_take, show min xs.length (xs.length + 1) = xs.length from by omega,
        ringSlots_drop_take st cap xs.length xs hcap hst (by omega) (Nat.le_refl _),
        List.take_length, List.length_take, List.length_drop, ringSlots_length,
        show xs.length ⊓ min (xs.length + 1) (cap - st) = xs.length from by omega,
        List.drop_replicate]
      simp
    · have hend : (st + xs.length) % cap = st + xs.length - cap := by
        rw [Nat.mod_eq_sub_mod hcase, Nat.mod_eq_of_lt (by omega)]
      rw [hend, if_neg (by omega), if_pos (by omega)]
      refine congrArg some ?_
      have hp1 : (ringSlots st cap xs).drop st = xs.take (cap - st) := by
        conv_lhs => rw [← List.take_length ((ringSlots st cap xs).drop st)]
        rw [List.length_drop, ringSlots_length,
          ringSlots_drop_take st cap (cap - st) xs hcap hst (by omega) (by omega)]
      have hp2 : (ringSlots st cap xs).take (st + xs.length - cap) = xs.drop (cap - st) := by
        rw [ringSlots_take_wrap st cap (st + xs.length - cap) xs hcap hst (by omega)
          (by omega)]
        apply List.take_of_length_le
        rw [List.length_drop]
        omega
      rw [hp1, hp2]
      have hs1 : V2.goCopy (List.replicate xs.length "") (List.take (cap - st) xs)
          = List.take (cap - st) xs ++ List.replicate (xs.length - (cap - st)) "" := by
        unfold V2.goCopy
        rw [List.length_replicate,
          List.take_of_length_le (by rw [List.length_take]; omega),
          List.length_take,
          show xs.length ⊓ min (cap - st) xs.length = cap - st from by omega,
          List.drop_replicate]
      rw [hs1, List.take_left' (by rw [List.length_take]; omega),
        List.drop_left' (by rw [List.length_take]; omega)]
      have hs2 : V2.goCopy (List.replicate (xs.length - (cap - st)) "")
          (List.drop (cap - st) xs) = List.drop (cap - st) xs := by
        unfold V2.goCopy
        rw [List.length_replicate,
          List.take_of_length_le (by rw [List.length_drop]),
          List.length_drop,
          show (xs.length - (cap - st)) ⊓ (xs.length - (cap - st))
            = xs.length - (cap - st) from by omega,
          List.drop_replicate]
        simp
      rw [hs2, List.take_append_drop]

theorem ringSlots_mem (a cap : Nat) (xs : List String) (x : String)
    (hx : x ∈ ringSlots a cap xs) : x = "" ∨ x ∈ xs := by
  unfold ringSlots at hx
  rcases List.mem_map.mp hx with ⟨j, _, rfl⟩
  by_cases hd : off a j cap < xs.length
  · right
    rw [List.getD_eq_getElem?_getD, List.getElem?_eq_getElem hd]
    exact List.getElem_mem hd
  · left
    exact getD_length_ge xs (off a j cap) (by omega)

/-! ### The claims -/

/-- C2: the spec declares capacity-0 buffers a normal, specified case in which
every `Push` (and `Unshift`) is immediately evicted with no panic; the code
instead divides by zero in `mod` (`(x + l) % l` with `l = 0`), a Go runtime
panic, modelled here by `none`. -/
theorem c2_zero_capacity_push_panics :
    V1.Push (NewStRingBuffer 0) ["x"] = none
      ∧ V1.Unshift (NewStRingBuffer 0) ["x"] = none := by
  exact ⟨rfl, rfl⟩

/-- C9: on an empty buffer (occupancy 0) `Pop` and `Shift` return the empty
string and the buffer itself, completely unchanged. -/
theorem c9_empty_pop_shift_noop (s : StRingBuffer) (h : s.length = 0) :
    V1.Pop s = some ("", s) ∧ V1.Shift s = some ("", s) := by
  have he : s.Empty = true := by
    simp [StRingBuffer.Empty, h]
  unfold V1.Pop V1.Shift
  rw [he]
  simp

/-- Witness for C9 at the concrete empty buffer of capacity 2. -/
theorem c9_empty_pop_shift_noop_witness :
    V1.Pop (NewStRingBuffer 2) = some ("", NewStRingBuffer 2)
      ∧ V1.Shift (NewStRingBuffer 2) = some ("", NewStRingBuffer 2) :=
  c9_empty_pop_shift_noop (NewStRingBuffer 2) rfl

/-- C10: the empty-string return value is ambiguous: the empty capacity-1
buffer and the non-empty buffer obtained by pushing `""` are distinct states,
yet `Pop` (and `Shift`) return `""` on both. -/
theorem c10_empty_string_ambiguous :
    ∃ b r, V1.Push (NewStRingBuffer 1) [""] = some b
      ∧ b.length ≠ 0
      ∧ (NewStRingBuffer 1).length = 0
      ∧ V1.Pop (NewStRingBuffer 1) = some ("", NewStRingBuffer 1)
      ∧ V1.Shift (NewStRingBuffer 1) = some ("", NewStRingBuffer 1)
      ∧ V1.Pop b = some ("", r)
      ∧ (∃ r2, V1.Shift b = some ("", r2))
      ∧ b ≠ NewStRingBuffer 1 :=
  ⟨⟨0, 0, [""], 1⟩, ⟨0, 0, [""], 0⟩, rfl, by decide, rfl, rfl, rfl, rfl,
    ⟨⟨0, 0, [""], 0⟩, rfl⟩, by decide⟩

/-- C1 as stated is false: `Unshift("a","b")` on an empty capacity-2 buffer
followed by two `Shift` calls yields `"b","a"`, not `"a","b"`. -/
theorem c1_unshift_shift_counterexample :
    (V1.Unshift (NewStRingBuffer 2) ["a", "b"]).bind (fun b => V1.shiftN b 2)
        = some (["b", "a"], ⟨0, 0, ["", ""], 0⟩)
      ∧ (["b", "a"] : List String) ≠ ["a", "b"] :=
  ⟨rfl, by decide⟩

/-- C1 amended: unshifting `v1..vn` (n ≤ c) onto an empty capacity-c buffer
and then shifting `n` times yields the values in reverse argument order
`vn, …, v1` (the last argument of `Unshift` ends up at the front). -/
theorem c1_unshift_shift_reversed (c : Nat) (vs : List String) (h : vs.length ≤ c) :
    ∃ b r, V1.Unshift (NewStRingBuffer c) vs = some b
      ∧ V1.shiftN b vs.length = some (vs.reverse, r) := by
  rcases Nat.eq_zero_or_pos c with hc | hc
  · have hvs : vs = [] := List.length_eq_zero.mp (by omega)
    subst hvs
    subst hc
    exact ⟨NewStRingBuffer 0, NewStRingBuffer 0, rfl, rfl⟩
  · rw [new_eq_buildV1]
    obtain ⟨st', hst', hU⟩ := v1_unshift_list c 0 [] vs hc (by simpa using h)
    rw [List.append_nil] at hU
    obtain ⟨st'', _, hS⟩ := v1_shiftN_build c st' vs.reverse hst' (by simpa using h)
    rw [List.length_reverse] at hS
    exact ⟨_, _, hU, hS⟩

/-- Witness for the amended C1 at capacity 2 and values `"a","b"`. -/
theorem c1_unshift_shift_reversed_witness :
    ∃ b r, V1.Unshift (NewStRingBuffer 2) ["a", "b"] = some b
      ∧ V1.shiftN b 2 = some (["b", "a"], r) :=
  c1_unshift_shift_reversed 2 ["a", "b"] (by decide)

/-- C3: pushing `v1..vn` (n ≤ c) onto an empty capacity-c buffer and then
popping `n` times yields the values in reverse push order and leaves the
buffer empty. -/
theorem c3_push_pop_inverse (c : Nat) (vs : List String) (h : vs.length ≤ c) :
    ∃ b r, V1.Push (NewStRingBuffer c) vs = some b
      ∧ V1.popN b vs.length = some (vs.reverse, r) ∧ r.length = 0 := by
  rcases Nat.eq_zero_or_pos c with hc | hc
  · have hvs : vs = [] := List.length_eq_zero.mp (by omega)
    subst hvs
    subst hc
    exact ⟨NewStRingBuffer 0, NewStRingBuffer 0, rfl, rfl, rfl⟩
  · rw [new_eq_buildV1]
    have hP := v1_push_list c 0 [] vs hc (by simpa using h)
    have hD := v1_popN_build c 0 vs hc h
    exact ⟨_, _, hP, hD, rfl⟩

/-- Witness for C3 at capacity 3 and values `"1","2","3"`. -/
theorem c3_push_pop_inverse_witness :
    ∃ b r, V1.Push (NewStRingBuffer 3) ["1", "2", "3"] = some b
      ∧ V1.popN b 3 = some (["3", "2", "1"], r) ∧ r.length = 0 :=
  c3_push_pop_inverse 3 ["1", "2", "3"] (by decide)

/-- C4: pushing `c+1` values onto an empty capacity-c buffer (c ≥ 1) leaves
exactly `v2..v(c+1)` as the live contents, recoverable in order by `c`
successive `Shift` calls; the evicted `v1` (when distinct from the surviving
values and from the `""` sentinel) no longer occurs anywhere in the backing
storage, so no operation can return it. -/
theorem c4_eviction (c : Nat) (v1 : String) (vs : List String)
    (hc : 0 < c) (hlen : vs.length = c) :
    ∃ b r, V1.Push (NewStRingBuffer c) (v1 :: vs) = some b
      ∧ V1.shiftN b c = some (vs, r)
      ∧ (v1 ∉ vs → v1 ≠ "" → v1 ∉ b.lines) := by
  obtain ⟨vs0, vl, rfl⟩ : ∃ L b, vs = L ++ [b] := by
    rcases List.eq_nil_or_concat vs with h | ⟨L, b, hh⟩
    · subst h
      simp at hlen
      omega
    · exact ⟨L, b, by simpa using hh⟩
  rw [new_eq_buildV1]
  have hP1 : V1.Push (buildV1 c 0 []) (v1 :: vs0) = some (buildV1 c 0 (v1 :: vs0)) := by
    have := v1_push_list c 0 [] (v1 :: vs0) hc (by simp at hlen ⊢; omega)
    simpa using this
  have hP2 : V1.push1 (buildV1 c 0 (v1 :: vs0)) vl
      = some (buildV1 c ((0 + 1) % c) (vs0 ++ [vl])) := by
    have := v1_push_build_full c 0 (v1 :: vs0) vl hc (by simp at hlen ⊢; omega)
    simpa using this
  have hPush : V1.Push (buildV1 c 0 []) (v1 :: (vs0 ++ [vl]))
      = some (buildV1 c ((0 + 1) % c) (vs0 ++ [vl])) := by
    show List.foldlM V1.push1 (buildV1 c 0 []) (v1 :: (vs0 ++ [vl])) = _
    rw [show v1 :: (vs0 ++ [vl]) = (v1 :: vs0) ++ [vl] from rfl, List.foldlM_append]
    rw [show List.foldlM V1.push1 (buildV1 c 0 []) (v1 :: vs0)
        = V1.Push (buildV1 c 0 []) (v1 :: vs0) from rfl, hP1]
    simp only [Option.pure_def, Option.bind_eq_bind, Option.some_bind,
      List.foldlM_cons, List.foldlM_nil]
    rw [hP2]
    rfl
  have hst1 : (0 + 1) % c < c := Nat.mod_lt _ hc
  obtain ⟨st'', _, hS⟩ := v1_shiftN_build c ((0 + 1) % c) (vs0 ++ [vl]) hst1
    (by simp at hlen ⊢; omega)
  rw [show (vs0 ++ [vl]).length = c from by simpa using hlen] at hS
  refine ⟨_, _, hPush, hS, ?_⟩
  intro hnotin hne hmem
  have : v1 = "" ∨ v1 ∈ vs0 ++ [vl] :=
    ringSlots_mem ((0 + 1) % c + 1) c (vs0 ++ [vl]) v1 hmem
  rcases this with h | h
  · exact hne h
  · exact hnotin h

/-- Witness for C4 at capacity 3 and values `"1"` then `"2","3","4"`. -/
theorem c4_eviction_witness :
    0 < 3 ∧ ∃ b r, V1.Push (NewStRingBuffer 3) ["1", "2", "3", "4"] = some b
      ∧ V1.shiftN b 3 = some (["2", "3", "4"], r)
      ∧ ("1" ∉ (["2", "3", "4"] : List String) → "1" ≠ "" → "1" ∉ b.lines) :=
  ⟨by decide, c4_eviction 3 "1" ["2", "3", "4"] (by decide) (by decide)⟩

/-- C5: on any reachable buffer with live contents `x1..xn` (any start offset,
the full case `n = cap` included), `Map f` replaces the contents with
`f x1 .. f xn` in the same front-to-back order with occupancy unchanged, and
the recorded trace shows `f` observing `x1..xn` in front-to-back order. -/
theorem c5_map_front_to_back (cap st : Nat) (xs : List String) (f : String → String)
    (hst : st < cap ∨ (cap = 0 ∧ st = 0)) (hn : xs.length ≤ cap) :
    V1.Map (buildV1 cap st xs) f
        = some (buildV1 cap ((st + xs.length) % cap) (xs.map f))
      ∧ V1.mapStepsT xs.length f (buildV1 cap st xs)
        = some (buildV1 cap ((st + xs.length) % cap) (xs.map f), xs) := by
  rcases hst with hst | ⟨hcap0, hst0⟩
  · have hT := v1_mapT_build cap st xs [] f hst (by simpa using hn)
    rw [List.append_nil] at hT
    constructor
    · show V1.mapSteps (buildV1 cap st xs).length f (buildV1 cap st xs) = _
      rw [show (buildV1 cap st xs).length = xs.length from rfl,
        v1_mapSteps_eq_T, hT]
      rfl
    · exact hT
  · subst hcap0
    subst hst0
    have hxs : xs = [] := List.length_eq_zero.mp (by omega)
    subst hxs
    exact ⟨rfl, rfl⟩

/-- Witness for C5 on a full capacity-2 buffer with offset start. -/
theorem c5_map_front_to_back_witness :
    V1.Map (buildV1 2 1 ["a", "b"]) (fun s => s ++ "!")
        = some (buildV1 2 ((1 + 2) % 2) (["a", "b"].map (fun s => s ++ "!")))
      ∧ V1.mapStepsT 2 (fun s => s ++ "!") (buildV1 2 1 ["a", "b"])
        = some (buildV1 2 ((1 + 2) % 2) (["a", "b"].map (fun s => s ++ "!")),
            ["a", "b"]) :=
  c5_map_front_to_back 2 1 ["a", "b"] (fun s => s ++ "!") (Or.inl (by decide))
    (by decide)

/-- C6 as stated is false: on the empty input sequence `Unslice` divides by
zero in `mod` (`srb.mod(srb.length)` with zero capacity), a Go runtime panic
modelled by `none`, instead of returning a buffer. -/
theorem c6_unslice_empty_counterexample : V2.Unslice [] = none :=
  rfl

/-- C6 amended: for every nonempty input sequence, `Unslice` returns a full
buffer whose capacity is the input length and whose front-to-back contents
equal the input, so `Shift` yields the first element and `Pop` the last; and
slicing any nonempty reachable buffer and unslicing the result reproduces a
full buffer with the same contents in the same order. -/
theorem c6_unslice_inverse (xs : List String) (cap st : Nat) (h : xs ≠ [])
    (hst : st < cap) (hn : xs.length ≤ cap) :
    V2.Unslice xs = some (buildV2 xs.length 0 xs)
      ∧ (buildV2 xs.length 0 xs).Full = true
      ∧ (buildV2 xs.length 0 xs).Capacity = xs.length
      ∧ (∃ r, V2.shiftN (buildV2 xs.length 0 xs) xs.length = some (xs, r))
      ∧ (∃ s1, V2.Shift (buildV2 xs.length 0 xs) = some (xs.getD 0 "", s1))
      ∧ (∃ s2, V2.Pop (buildV2 xs.length 0 xs)
          = some (xs.getD (xs.length - 1) "", s2))
      ∧ (V2.Slice (buildV2 cap st xs)).bind V2.Unslice
          = some (buildV2 xs.length 0 xs) := by
  have hl : 0 < xs.length := List.length_pos.mpr h
  have hU := v2_unslice_build xs h
  refine ⟨hU, ?_, ?_, ?_, ?_, ?_, ?_⟩
  · simp [StRingBuffer.Full, buildV2, ringSlots_length]
  · simp [StRingBuffer.Capacity, buildV2, ringSlots_length]
  · obtain ⟨st', _, hS⟩ := v2_shiftN_build xs.length 0 xs hl (Nat.le_refl _)
    exact ⟨_, hS⟩
  · rcases xs with _ | ⟨x, xs'⟩
    · exact absurd rfl h
    · have := v2_shift_build (x :: xs').length 0 x xs' hl (by simp)
      exact ⟨_, this⟩
  · obtain ⟨ys, y, rfl⟩ : ∃ L b, xs = L ++ [b] := by
      rcases List.eq_nil_or_concat xs with h0 | ⟨L, b, hh⟩
      · exact absurd h0 h
      · exact ⟨L, b, by simpa using hh⟩
    have := v2_pop_build (ys ++ [y]).length 0 ys y hl (by simp)
    rw [show (ys ++ [y]).getD ((ys ++ [y]).length - 1) ""
        = y from by
      rw [show (ys ++ [y]).length - 1 = ys.length from by simp, getD_append_eq]]
    exact ⟨_, this⟩
  · rw [v2_slice_build cap st xs hst hn]
    simpa using hU

/-- Witness for the amended C6 with input `"x","y"` read back from a
capacity-3 buffer at start offset 1. -/
theorem c6_unslice_inverse_witness :
    V2.Unslice ["x", "y"] = some (buildV2 2 0 ["x", "y"])
      ∧ (buildV2 2 0 ["x", "y"]).Full = true
      ∧ (buildV2 2 0 ["x", "y"]).Capacity = 2
      ∧ (∃ r, V2.shiftN (buildV2 2 0 ["x", "y"]) 2 = some (["x", "y"], r))
      ∧ (∃ s1, V2.Shift (buildV2 2 0 ["x", "y"]) = some ("x", s1))
      ∧ (∃ s2, V2.Pop (buildV2 2 0 ["x", "y"]) = some ("y", s2))
      ∧ (V2.Slice (buildV2 3 1 ["x", "y"])).bind V2.Unslice
          = some (buildV2 2 0 ["x", "y"]) :=
  c6_unslice_inverse ["x", "y"] 3 1 (by decide) (by decide) (by decide)

/-- C7: on any reachable buffer (contents `xs`, any start offset, full case
included) and any transformation `f`, `MapR f` produces exactly the same live
contents `xs.map f`, in the same front-to-back order and with the same
occupancy, as `Map f`; the two differ only in the order in which `f` observes
the elements, recorded by the traces: `Map` observes `xs` front to back,
`MapR` observes `xs.reverse`. -/
theorem c7_mapr_matches_map (cap st : Nat) (xs : List String) (f : String → String)
    (hst : st < cap ∨ (cap = 0 ∧ st = 0)) (hn : xs.length ≤ cap) :
    ∃ s1 s2, V2.Map (buildV2 cap st xs) f = some s1
      ∧ V2.MapR (buildV2 cap st xs) f = some s2
      ∧ s1 = buildV2 cap ((st + xs.length) % cap) (xs.map f)
      ∧ s2 = buildV2 cap ((st + xs.length * (cap - 1)) % cap) (xs.map f)
      ∧ s1.length = s2.length
      ∧ (V2.mapStepsT xs.length f (buildV2 cap st xs)).map Prod.snd = some xs
      ∧ (V2.mapRStepsT xs.length f (buildV2 cap st xs)).map Prod.snd
          = some xs.reverse := by
  rcases hst with hst | ⟨hcap0, hst0⟩
  · have hT := v2_mapT_build cap st xs [] f hst (by simpa using hn)
    rw [List.append_nil, List.nil_append] at hT
    have hRT := v2_mapRT_build cap st [] xs f hst (by simpa using hn)
    rw [List.nil_append, List.append_nil] at hRT
    refine ⟨_, _, ?_, ?_, rfl, rfl, rfl, ?_, ?_⟩
    · show V2.mapSteps (buildV2 cap st xs).length f (buildV2 cap st xs) = _
      rw [show (buildV2 cap st xs).length = xs.length from rfl,
        v2_mapSteps_eq_T, hT]
      rfl
    · show V2.mapRSteps (buildV2 cap st xs).length f (buildV2 cap st xs) = _
      rw [show (buildV2 cap st xs).length = xs.length from rfl,
        v2_mapRSteps_eq_T, hRT]
      rfl
    · rw [hT]
      rfl
    · rw [hRT]
      rfl
  · subst hcap0
    subst hst0
    have hxs : xs = [] := List.length_eq_zero.mp (by omega)
    subst hxs
    exact ⟨_, _, rfl, rfl, rfl, rfl, rfl, rfl, rfl⟩

/-- Witness for C7 on a full capacity-3 buffer. -/
theorem c7_mapr_matches_map_witness :
    ∃ s1 s2, V2.Map (buildV2 3 1 ["a", "b", "c"]) (fun s => s ++ "!") = some s1
      ∧ V2.MapR (buildV2 3 1 ["a", "b", "c"]) (fun s => s ++ "!") = some s2
      ∧ s1 = buildV2 3 ((1 + 3) % 3) (["a", "b", "c"].map (fun s => s ++ "!"))
      ∧ s2 = buildV2 3 ((1 + 3 * (3 - 1)) % 3) (["a", "b", "c"].map (fun s => s ++ "!"))
      ∧ s1.length = s2.length
      ∧ (V2.mapStepsT 3 (fun s => s ++ "!") (buildV2 3 1 ["a", "b", "c"])).map Prod.snd
          = some ["a", "b", "c"]
      ∧ (V2.mapRStepsT 3 (fun s => s ++ "!") (buildV2 3 1 ["a", "b", "c"])).map Prod.snd
          = some ["c", "b", "a"] :=
  c7_mapr_matches_map 3 1 ["a", "b", "c"] (fun s => s ++ "!") (Or.inl (by decide))
    (by decide)

/-- C8: on any reachable buffer with live contents `xs` (any start offset,
wrapped layouts and the full and capacity-0 cases included), `Slice` returns
exactly the front-to-back live contents — the same list a `Shift` drain
yields — and, being a pure function of the state, changes nothing: the
original buffer value is untouched and the returned list is a fresh value
independent of the backing storage. -/
theorem c8_slice_front_to_back (cap st : Nat) (xs : List String)
    (hn : xs.length ≤ cap) (hst : st < cap ∨ (cap = 0 ∧ st = 0)) :
    V2.Slice (buildV2 cap st xs) = some xs
      ∧ (∃ r, V2.shiftN (buildV2 cap st xs) xs.length = some (xs, r)) := by
  rcases hst with hst | ⟨hcap0, hst0⟩
  · refine ⟨v2_slice_build cap st xs hst hn, ?_⟩
    obtain ⟨st', _, hS⟩ := v2_shiftN_build cap st xs hst hn
    exact ⟨_, hS⟩
  · subst hcap0
    subst hst0
    have hxs : xs = [] := List.length_eq_zero.mp (by omega)
    subst hxs
    exact ⟨rfl, ⟨buildV2 0 0 [], rfl⟩⟩

/-- Witness for C8 on a wrapped capacity-3 buffer holding two elements. -/
theorem c8_slice_front_to_back_witness :
    V2.Slice (buildV2 3 2 ["a", "b"]) = some ["a", "b"]
      ∧ (∃ r, V2.shiftN (buildV2 3 2 ["a", "b"]) 2 = some (["a", "b"], r)) :=
  c8_slice_front_to_back 3 2 ["a", "b"] (by decide) (Or.inl (by decide))
